import Mathlib

/-!
# Verification of the `bimap` package (bidirectional map)

Shallow embedding of `bimap.go` and `immutable.go`.

* A Go `map[K]V` is modelled as `Finmap (fun _ : K => V)`: a finite,
  unordered association of keys to values with unique keys — exactly the
  observable semantics of a Go map (Go maps have no observable ordering,
  so two maps with the same entries are equal).
* `panic("Cannot modify immutable map")` is modelled by the mutating
  operations returning `Option`: `none` is the panic.  In the Go code the
  panic fires before any write, so on the panic path the receiver's maps
  are untouched; in the model no successor state is produced.
* The `sync.RWMutex` field is not modelled: every operation is a single
  atomic step on the state, which is the sequential semantics the lock
  provides.
* Go's two-result lookup `(v, ok)` is modelled as `Option`.
* For the two frame-effect properties (snapshot independence of `Freeze`
  and the defensive copies of the immutable accessors) a second, heap-level
  model is given further down, in which map objects live at addresses in an
  explicit store, so that "shares no storage" is a real statement.
-/

namespace Bimap

/-- A Go `map[K]V`: a finite map with unique keys and no entry order. -/
abbrev GoMap (K V : Type) : Type := Finmap fun _ : K => V

variable {K V : Type} [DecidableEq K] [DecidableEq V]

/-- `BiMap` from `bimap.go`: the `immutable` flag and the two indices
(`forward : map[K]V`, `inverse : map[V]K`).  The mutex field is omitted
(see the module comment). -/
structure BiMap (K V : Type) where
  immutable : Bool
  forward : GoMap K V
  inverse : GoMap V K
deriving DecidableEq

/-- `NewBiMap`: an empty, mutable bimap. -/
def NewBiMap : BiMap K V :=
  { immutable := false, forward := ∅, inverse := ∅ }

/-- `Insert`: panics (`none`) if immutable; otherwise, if `k` already has a
value, first deletes that old value's inverse entry, then sets
`forward[k] = v` and `inverse[v] = k`. -/
def BiMap.Insert (b : BiMap K V) (k : K) (v : V) : Option (BiMap K V) :=
  if b.immutable then none
  else
    let inv :=
      match b.forward.lookup k with
      | some vOld => b.inverse.erase vOld
      | none => b.inverse
    some { b with forward := b.forward.insert k v, inverse := inv.insert v k }

/-- `ExistsByKey`: whether `k` is in the forward map. -/
def BiMap.ExistsByKey (b : BiMap K V) (k : K) : Bool :=
  (b.forward.lookup k).isSome

/-- Deprecated `Exists`: delegates to `ExistsByKey`. -/
def BiMap.Exists (b : BiMap K V) (k : K) : Bool :=
  b.ExistsByKey k

/-- `ExistsByValue`: whether the value is in the inverse map. -/
def BiMap.ExistsByValue (b : BiMap K V) (k : V) : Bool :=
  (b.inverse.lookup k).isSome

/-- Deprecated `ExistsInverse`: delegates to `ExistsByValue`. -/
def BiMap.ExistsInverse (b : BiMap K V) (k : V) : Bool :=
  b.ExistsByValue k

/-- `GetByKey`: the value for `k` together with the presence flag. -/
def BiMap.GetByKey (b : BiMap K V) (k : K) : Option V :=
  b.forward.lookup k

/-- Deprecated `Get`: delegates to `GetByKey`. -/
def BiMap.Get (b : BiMap K V) (k : K) : Option V :=
  b.GetByKey k

/-- `GetByValue`: the key for `v` together with the presence flag. -/
def BiMap.GetByValue (b : BiMap K V) (v : V) : Option K :=
  b.inverse.lookup v

/-- Deprecated `GetInverse`: delegates to `GetByValue`. -/
def BiMap.GetInverse (b : BiMap K V) (v : V) : Option K :=
  b.GetByValue v

/-- `GetByKeyWithFallback`: the value for `k`, or `fallback` if absent. -/
def BiMap.GetByKeyWithFallback (b : BiMap K V) (k : K) (fallback : V) : V :=
  match b.GetByKey k with
  | some v => v
  | none => fallback

/-- `GetByValueWithFallback`: the key for `v`, or `fallback` if absent. -/
def BiMap.GetByValueWithFallback (b : BiMap K V) (v : V) (fallback : K) : K :=
  match b.GetByValue v with
  | some k => k
  | none => fallback

/-- `DeleteByKey`: panics (`none`) if immutable; returns with the state
unchanged if `k` is absent; otherwise deletes the pair from both maps. -/
def BiMap.DeleteByKey (b : BiMap K V) (k : K) : Option (BiMap K V) :=
  if b.immutable then none
  else
    match b.forward.lookup k with
    | none => some b
    | some val =>
        some { b with forward := b.forward.erase k, inverse := b.inverse.erase val }

/-- Deprecated `Delete`: delegates to `DeleteByKey`. -/
def BiMap.Delete (b : BiMap K V) (k : K) : Option (BiMap K V) :=
  b.DeleteByKey k

/-- `DeleteByValue`: panics (`none`) if immutable; returns with the state
unchanged if `v` is absent; otherwise deletes the pair from both maps. -/
def BiMap.DeleteByValue (b : BiMap K V) (v : V) : Option (BiMap K V) :=
  if b.immutable then none
  else
    match b.inverse.lookup v with
    | none => some b
    | some key =>
        some { b with inverse := b.inverse.erase v, forward := b.forward.erase key }

/-- Deprecated `DeleteInverse`: delegates to `DeleteByValue`. -/
def BiMap.DeleteInverse (b : BiMap K V) (v : V) : Option (BiMap K V) :=
  b.DeleteByValue v

/-- `Size`: `len(b.forward)`, the number of entries of the forward map. -/
def BiMap.Size (b : BiMap K V) : Nat :=
  b.forward.keys.card

/-- `MakeImmutable`: sets the frozen flag. -/
def BiMap.MakeImmutable (b : BiMap K V) : BiMap K V :=
  { b with immutable := true }

/-- `ImmutableBiMap` from `immutable.go`: the two indices, no flag, no
mutation API. -/
structure ImmutableBiMap (K V : Type) where
  forward : GoMap K V
  inverse : GoMap V K
deriving DecidableEq

/-- `Freeze`: a snapshot of the current state as an `ImmutableBiMap`.  The
Go code copies each map entry by entry; the copy has exactly the same
entries, so at the level of map contents it is the same `GoMap` value.
(The fact that the copy is at a fresh address, sharing no storage with the
source, is modelled in the heap-level development below.) -/
def BiMap.Freeze (b : BiMap K V) : ImmutableBiMap K V :=
  { forward := b.forward, inverse := b.inverse }

/-- `ImmutableBiMap.GetByKey`. -/
def ImmutableBiMap.GetByKey (b : ImmutableBiMap K V) (k : K) : Option V :=
  b.forward.lookup k

/-- `ImmutableBiMap.GetByValue`. -/
def ImmutableBiMap.GetByValue (b : ImmutableBiMap K V) (v : V) : Option K :=
  b.inverse.lookup v

/-- `ImmutableBiMap.GetByKeyWithFallback`. -/
def ImmutableBiMap.GetByKeyWithFallback (b : ImmutableBiMap K V) (k : K)
    (fallback : V) : V :=
  match b.forward.lookup k with
  | some v => v
  | none => fallback

/-- `ImmutableBiMap.GetByValueWithFallback`. -/
def ImmutableBiMap.GetByValueWithFallback (b : ImmutableBiMap K V) (v : V)
    (fallback : K) : K :=
  match b.inverse.lookup v with
  | some k => k
  | none => fallback

/-- `ImmutableBiMap.ExistsByKey`. -/
def ImmutableBiMap.ExistsByKey (b : ImmutableBiMap K V) (k : K) : Bool :=
  (b.forward.lookup k).isSome

/-- `ImmutableBiMap.ExistsByValue`. -/
def ImmutableBiMap.ExistsByValue (b : ImmutableBiMap K V) (v : V) : Bool :=
  (b.inverse.lookup v).isSome

/-- `ImmutableBiMap.Size`: `len(b.forward)`. -/
def ImmutableBiMap.Size (b : ImmutableBiMap K V) : Nat :=
  b.forward.keys.card

/-!
## Heap-level model

In Go, `forward` and `inverse` are references to map objects on the heap.
`Freeze` and the immutable accessors `GetForwardMap` / `GetInverseMap`
allocate *new* map objects and copy the entries, so mutating the source
afterwards cannot affect the snapshot and mutating a returned copy cannot
affect the `ImmutableBiMap`.  To state these no-shared-storage properties,
map objects are placed in an explicit store indexed by addresses (`Nat`),
with `next` the next fresh address.  A fresh allocation takes `next` and
bumps it, as a heap does; mutating operations write in place through the
receiver's addresses and allocate nothing. -/
structure Heap (K V : Type) where
  fwdStore : Nat → GoMap K V
  invStore : Nat → GoMap V K
  next : Nat

/-- Heap-level `BiMap`: the flag plus the addresses of its two maps. -/
structure HBiMap where
  immutable : Bool
  forward : Nat
  inverse : Nat

/-- Heap-level `ImmutableBiMap`: the addresses of its two maps. -/
structure HImmutableBiMap where
  forward : Nat
  inverse : Nat

/-- Overwrite the `map[K]V` object at address `r`. -/
def Heap.writeFwd (h : Heap K V) (r : Nat) (m : GoMap K V) : Heap K V :=
  { h with fwdStore := fun a => if a = r then m else h.fwdStore a }

/-- Overwrite the `map[V]K` object at address `r`. -/
def Heap.writeInv (h : Heap K V) (r : Nat) (m : GoMap V K) : Heap K V :=
  { h with invStore := fun a => if a = r then m else h.invStore a }

/-- Heap-level `Insert`: `none` is the panic; otherwise updates the two map
objects in place through the receiver's addresses. -/
def HBiMap.Insert (b : HBiMap) (h : Heap K V) (k : K) (v : V) :
    Option (Heap K V) :=
  if b.immutable then none
  else
    let f := h.fwdStore b.forward
    let i := h.invStore b.inverse
    let i1 :=
      match f.lookup k with
      | some vOld => i.erase vOld
      | none => i
    some ((h.writeFwd b.forward (f.insert k v)).writeInv b.inverse (i1.insert v k))

/-- Heap-level `DeleteByKey`. -/
def HBiMap.DeleteByKey (b : HBiMap) (h : Heap K V) (k : K) :
    Option (Heap K V) :=
  if b.immutable then none
  else
    let f := h.fwdStore b.forward
    match f.lookup k with
    | none => some h
    | some val =>
        some ((h.writeFwd b.forward (f.erase k)).writeInv b.inverse
          ((h.invStore b.inverse).erase val))

/-- Heap-level `DeleteByValue`. -/
def HBiMap.DeleteByValue (b : HBiMap) (h : Heap K V) (v : V) :
    Option (Heap K V) :=
  if b.immutable then none
  else
    let i := h.invStore b.inverse
    match i.lookup v with
    | none => some h
    | some key =>
        some ((h.writeInv b.inverse (i.erase v)).writeFwd b.forward
          ((h.fwdStore b.forward).erase key))

/-- Heap-level `GetByKey`. -/
def HBiMap.GetByKey (b : HBiMap) (h : Heap K V) (k : K) : Option V :=
  (h.fwdStore b.forward).lookup k

/-- Heap-level `GetByValue`. -/
def HBiMap.GetByValue (b : HBiMap) (h : Heap K V) (v : V) : Option K :=
  (h.invStore b.inverse).lookup v

/-- Heap-level `ExistsByKey`. -/
def HBiMap.ExistsByKey (b : HBiMap) (h : Heap K V) (k : K) : Bool :=
  ((h.fwdStore b.forward).lookup k).isSome

/-- Heap-level `ExistsByValue`. -/
def HBiMap.ExistsByValue (b : HBiMap) (h : Heap K V) (v : V) : Bool :=
  ((h.invStore b.inverse).lookup v).isSome

/-- Heap-level `Size`. -/
def HBiMap.Size (b : HBiMap) (h : Heap K V) : Nat :=
  (h.fwdStore b.forward).keys.card

/-- Heap-level `Freeze`: allocates two fresh map objects holding copies of
the receiver's current entries (the Go copy loops produce maps with
exactly the same entries) and returns an `HImmutableBiMap` holding the
fresh addresses.  The source's own objects are not written. -/
def HBiMap.Freeze (b : HBiMap) (h : Heap K V) :
    Heap K V × HImmutableBiMap :=
  ({ fwdStore := fun a =>
       if a = h.next then h.fwdStore b.forward else h.fwdStore a,
     invStore := fun a =>
       if a = h.next + 1 then h.invStore b.inverse else h.invStore a,
     next := h.next + 2 },
   { forward := h.next, inverse := h.next + 1 })

/-- Heap-level `ImmutableBiMap.GetByKey`. -/
def HImmutableBiMap.GetByKey (ib : HImmutableBiMap) (h : Heap K V) (k : K) :
    Option V :=
  (h.fwdStore ib.forward).lookup k

/-- Heap-level `ImmutableBiMap.GetByValue`. -/
def HImmutableBiMap.GetByValue (ib : HImmutableBiMap) (h : Heap K V) (v : V) :
    Option K :=
  (h.invStore ib.inverse).lookup v

/-- Heap-level `ImmutableBiMap.ExistsByKey`. -/
def HImmutableBiMap.ExistsByKey (ib : HImmutableBiMap) (h : Heap K V) (k : K) :
    Bool :=
  ((h.fwdStore ib.forward).lookup k).isSome

/-- Heap-level `ImmutableBiMap.ExistsByValue`. -/
def HImmutableBiMap.ExistsByValue (ib : HImmutableBiMap) (h : Heap K V)
    (v : V) : Bool :=
  ((h.invStore ib.inverse).lookup v).isSome

/-- Heap-level `ImmutableBiMap.Size`. -/
def HImmutableBiMap.Size (ib : HImmutableBiMap) (h : Heap K V) : Nat :=
  (h.fwdStore ib.forward).keys.card

/-- Heap-level `ImmutableBiMap.GetForwardMap`: allocates a fresh map object
holding a copy of the forward entries and returns its address. -/
def HImmutableBiMap.GetForwardMap (ib : HImmutableBiMap) (h : Heap K V) :
    Heap K V × Nat :=
  ({ h with
     fwdStore := fun a =>
       if a = h.next then h.fwdStore ib.forward else h.fwdStore a,
     next := h.next + 1 },
   h.next)

/-- Heap-level `ImmutableBiMap.GetInverseMap`: allocates a fresh map object
holding a copy of the inverse entries and returns its address. -/
def HImmutableBiMap.GetInverseMap (ib : HImmutableBiMap) (h : Heap K V) :
    Heap K V × Nat :=
  ({ h with
     invStore := fun a =>
       if a = h.next then h.invStore ib.inverse else h.invStore a,
     next := h.next + 1 },
   h.next)

/-- A mutating call on a heap-level `BiMap`: one of `Insert`,
`DeleteByKey`, `DeleteByValue` with its arguments. -/
inductive MutOp (K V : Type) where
  | insert (k : K) (v : V)
  | deleteByKey (k : K)
  | deleteByValue (v : V)

/-- Apply one mutating call to `b` on heap `h`. -/
def HBiMap.applyOp (b : HBiMap) (h : Heap K V) : MutOp K V → Option (Heap K V)
  | MutOp.insert k v => b.Insert h k v
  | MutOp.deleteByKey k => b.DeleteByKey h k
  | MutOp.deleteByValue v => b.DeleteByValue h v

/-- Run a sequence of mutating calls on `b`, threading the heap;
`none` as soon as one of them panics. -/
def HBiMap.runOps (b : HBiMap) (h : Heap K V) : List (MutOp K V) → Option (Heap K V)
  | [] => some h
  | op :: rest =>
      match b.applyOp h op with
      | none => none
      | some h1 => b.runOps h1 rest

/-!
## The bijection invariant (spec §3 I1, §8)

`Consistent b` says the two indices are exact inverses of one another.
It is preserved by `Insert` when the inserted value is not already the
value of a *different* key (the documented value-collision edge case) and
by the two deletes unconditionally. -/
def Consistent (b : BiMap K V) : Prop :=
  (∀ k v, b.forward.lookup k = some v → b.inverse.lookup v = some k) ∧
  (∀ v k, b.inverse.lookup v = some k → b.forward.lookup k = some v)

theorem consistent_empty : Consistent (NewBiMap : BiMap K V) := by
  constructor
  · intro k v hkv
    simp [NewBiMap, Finmap.lookup_empty] at hkv
  · intro v k hvk
    simp [NewBiMap, Finmap.lookup_empty] at hvk

/-- States reachable from the empty bimap by `Insert` / `DeleteByKey` /
`DeleteByValue`, where every `Insert b k v` is performed only when `v` is
not already the value of a key other than `k` (the excluded
value-collision edge case). -/
inductive SafeReach : BiMap K V → Prop where
  | init : SafeReach NewBiMap
  | insert {b b' : BiMap K V} (k : K) (v : V) :
      SafeReach b →
      (∀ k1, b.forward.lookup k1 = some v → k1 = k) →
      b.Insert k v = some b' → SafeReach b'
  | deleteByKey {b b' : BiMap K V} (k : K) :
      SafeReach b → b.DeleteByKey k = some b' → SafeReach b'
  | deleteByValue {b b' : BiMap K V} (v : V) :
      SafeReach b → b.DeleteByValue v = some b' → SafeReach b'

theorem consistent_insert {b b' : BiMap K V} {k : K} {v : V}
    (hc : Consistent b)
    (hcol : ∀ k1, b.forward.lookup k1 = some v → k1 = k)
    (heq : b.Insert k v = some b') : Consistent b' := by
  by_cases hb : b.immutable
  · simp [BiMap.Insert, hb] at heq
  · cases hfk : b.forward.lookup k with
    | none =>
        simp only [BiMap.Insert, hb, if_false, hfk, Option.some.injEq,
          Bool.false_eq_true] at heq
        subst heq
        constructor
        · intro k1 v1 h1
          by_cases hk1 : k1 = k
          · subst hk1
            rw [Finmap.lookup_insert] at h1
            cases h1
            simp [Finmap.lookup_insert]
          · rw [Finmap.lookup_insert_of_ne _ hk1] at h1
            have hv1 : v1 ≠ v := fun hv => hk1 (hcol k1 (hv ▸ h1))
            rw [Finmap.lookup_insert_of_ne _ hv1]
            exact hc.1 k1 v1 h1
        · intro v1 k1 h1
          by_cases hv1 : v1 = v
          · subst hv1
            rw [Finmap.lookup_insert] at h1
            cases h1
            simp [Finmap.lookup_insert]
          · rw [Finmap.lookup_insert_of_ne _ hv1] at h1
            have h2 := hc.2 v1 k1 h1
            have hk1 : k1 ≠ k := by
              intro hk
              rw [hk, hfk] at h2
              cases h2
            rw [Finmap.lookup_insert_of_ne _ hk1]
            exact h2
    | some vOld =>
        simp only [BiMap.Insert, hb, if_false, hfk, Option.some.injEq,
          Bool.false_eq_true] at heq
        subst heq
        constructor
        · intro k1 v1 h1
          by_cases hk1 : k1 = k
          · subst hk1
            rw [Finmap.lookup_insert] at h1
            cases h1
            simp [Finmap.lookup_insert]
          · rw [Finmap.lookup_insert_of_ne _ hk1] at h1
            have hv1 : v1 ≠ v := fun hv => hk1 (hcol k1 (hv ▸ h1))
            rw [Finmap.lookup_insert_of_ne _ hv1]
            have hvOld : v1 ≠ vOld := by
              intro hv
              have ha := hc.1 k1 v1 h1
              have hb2 := hc.1 k vOld hfk
              rw [hv, hb2] at ha
              cases ha
              exact hk1 rfl
            rw [Finmap.lookup_erase_ne hvOld]
            exact hc.1 k1 v1 h1
        · intro v1 k1 h1
          by_cases hv1 : v1 = v
          · subst hv1
            rw [Finmap.lookup_insert] at h1
            cases h1
            simp [Finmap.lookup_insert]
          · rw [Finmap.lookup_insert_of_ne _ hv1] at h1
            have hvOld : v1 ≠ vOld := by
              intro hv
              rw [hv, Finmap.lookup_erase] at h1
              cases h1
            rw [Finmap.lookup_erase_ne hvOld] at h1
            have h2 := hc.2 v1 k1 h1
            have hk1 : k1 ≠ k := by
              intro hk
              rw [hk, hfk] at h2
              cases h2
              exact hvOld rfl
            rw [Finmap.lookup_insert_of_ne _ hk1]
            exact h2

theorem consistent_deleteByKey {b b' : BiMap K V} {k : K}
    (hc : Consistent b) (heq : b.DeleteByKey k = some b') : Consistent b' := by
  by_cases hb : b.immutable
  · simp [BiMap.DeleteByKey, hb] at heq
  · cases hfk : b.forward.lookup k with
    | none =>
        simp only [BiMap.DeleteByKey, hb, if_false, hfk, Option.some.injEq,
          Bool.false_eq_true] at heq
        subst heq
        exact hc
    | some val =>
        simp only [BiMap.DeleteByKey, hb, if_false, hfk, Option.some.injEq,
          Bool.false_eq_true] at heq
        subst heq
        constructor
        · intro k1 v1 h1
          by_cases hk1 : k1 = k
          · subst hk1
            rw [Finmap.lookup_erase] at h1
            cases h1
          · rw [Finmap.lookup_erase_ne hk1] at h1
            have hv1 : v1 ≠ val := by
              intro hv
              have ha := hc.1 k1 v1 h1
              have hb2 := hc.1 k val hfk
              rw [hv, hb2] at ha
              cases ha
              exact hk1 rfl
            rw [Finmap.lookup_erase_ne hv1]
            exact hc.1 k1 v1 h1
        · intro v1 k1 h1
          by_cases hv1 : v1 = val
          · subst hv1
            rw [Finmap.lookup_erase] at h1
            cases h1
          · rw [Finmap.lookup_erase_ne hv1] at h1
            have h2 := hc.2 v1 k1 h1
            have hk1 : k1 ≠ k := by
              intro hk
              rw [hk, hfk] at h2
              cases h2
              exact hv1 rfl
            rw [Finmap.lookup_erase_ne hk1]
            exact h2

theorem consistent_deleteByValue {b b' : BiMap K V} {v : V}
    (hc : Consistent b) (heq : b.DeleteByValue v = some b') : Consistent b' := by
  by_cases hb : b.immutable
  · simp [BiMap.DeleteByValue, hb] at heq
  · cases hiv : b.inverse.lookup v with
    | none =>
        simp only [BiMap.DeleteByValue, hb, if_false, hiv, Option.some.injEq,
          Bool.false_eq_true] at heq
        subst heq
        exact hc
    | some key =>
        simp only [BiMap.DeleteByValue, hb, if_false, hiv, Option.some.injEq,
          Bool.false_eq_true] at heq
        subst heq
        constructor
        · intro k1 v1 h1
          by_cases hk1 : k1 = key
          · subst hk1
            rw [Finmap.lookup_erase] at h1
            cases h1
          · rw [Finmap.lookup_erase_ne hk1] at h1
            have hv1 : v1 ≠ v := by
              intro hv
              have ha := hc.1 k1 v1 h1
              rw [hv, hiv] at ha
              cases ha
              exact hk1 rfl
            rw [Finmap.lookup_erase_ne hv1]
            exact hc.1 k1 v1 h1
        · intro v1 k1 h1
          by_cases hv1 : v1 = v
          · subst hv1
            rw [Finmap.lookup_erase] at h1
            cases h1
          · rw [Finmap.lookup_erase_ne hv1] at h1
            have h2 := hc.2 v1 k1 h1
            have hk1 : k1 ≠ key := by
              intro hk
              have ha := hc.2 v key hiv
              rw [hk] at h2
              rw [h2] at ha
              cases ha
              exact hv1 rfl
            rw [Finmap.lookup_erase_ne hk1]
            exact h2

theorem consistent_of_safeReach {b : BiMap K V} (h : SafeReach b) :
    Consistent b := by
  induction h with
  | init => exact consistent_empty
  | insert k v _ hcol heq ih => exact consistent_insert ih hcol heq
  | deleteByKey k _ heq ih => exact consistent_deleteByKey ih heq
  | deleteByValue v _ heq ih => exact consistent_deleteByValue ih heq

theorem consistent_card_eq {b : BiMap K V} (hc : Consistent b) :
    b.forward.keys.card = b.inverse.keys.card := by
  refine Finset.card_bij'
    (fun k hk => (b.forward.lookup k).get
      (Finmap.lookup_isSome.mpr (Finmap.mem_keys.mp hk)))
    (fun v hv => (b.inverse.lookup v).get
      (Finmap.lookup_isSome.mpr (Finmap.mem_keys.mp hv)))
    ?_ ?_ ?_ ?_
  · intro k hk
    have hs : (b.forward.lookup k).isSome :=
      Finmap.lookup_isSome.mpr (Finmap.mem_keys.mp hk)
    have h1 : b.forward.lookup k = some ((b.forward.lookup k).get hs) :=
      (Option.some_get hs).symm
    have h2 := hc.1 k _ h1
    exact Finmap.mem_keys.mpr (Finmap.lookup_isSome.mp (by rw [h2]; rfl))
  · intro v hv
    have hs : (b.inverse.lookup v).isSome :=
      Finmap.lookup_isSome.mpr (Finmap.mem_keys.mp hv)
    have h1 : b.inverse.lookup v = some ((b.inverse.lookup v).get hs) :=
      (Option.some_get hs).symm
    have h2 := hc.2 v _ h1
    exact Finmap.mem_keys.mpr (Finmap.lookup_isSome.mp (by rw [h2]; rfl))
  · intro k hk
    have hs : (b.forward.lookup k).isSome :=
      Finmap.lookup_isSome.mpr (Finmap.mem_keys.mp hk)
    have h1 : b.forward.lookup k = some ((b.forward.lookup k).get hs) :=
      (Option.some_get hs).symm
    have h2 := hc.1 k _ h1
    simp [h2]
  · intro v hv
    have hs : (b.inverse.lookup v).isSome :=
      Finmap.lookup_isSome.mpr (Finmap.mem_keys.mp hv)
    have h1 : b.inverse.lookup v = some ((b.inverse.lookup v).get hs) :=
      (Option.some_get hs).symm
    have h2 := hc.2 v _ h1
    simp [h2]

/-- Claim C1: starting from the empty `MutableBimap`, after any sequence of
`Insert` / `DeleteByKey` / `DeleteByValue` calls in which no `Insert(k2, v)`
is performed while `v` is already the value of a different key, the state
satisfies `inverse[forward[k]] == k` for every key `k` of the forward map,
and the forward and inverse maps have the same number of entries. -/
theorem C1_bijection_invariant {b : BiMap K V} (h : SafeReach b) :
    (∀ k v, b.forward.lookup k = some v → b.inverse.lookup v = some k) ∧
      b.Size = b.inverse.keys.card := by
  have hc := consistent_of_safeReach h
  exact ⟨hc.1, consistent_card_eq hc⟩

/-- A concrete one-entry bimap (`0 ↦ 5`), used as input of the witnesses. -/
def exampleOne : BiMap Nat Nat :=
  { immutable := false
    forward := Finmap.insert 0 5 ∅
    inverse := Finmap.insert 5 0 ∅ }

/-- Claim C1, witness: the invariant theorem applied to the concrete state
reached by `Insert 0 5` from the empty bimap. -/
theorem C1_bijection_invariant_witness :
    (∀ k v, exampleOne.forward.lookup k = some v →
        exampleOne.inverse.lookup v = some k) ∧
      exampleOne.Size = exampleOne.inverse.keys.card :=
  C1_bijection_invariant
    (SafeReach.insert 0 5 SafeReach.init
      (fun k1 h => by simp [NewBiMap, Finmap.lookup_empty] at h)
      (by decide))

/-- Claim C2, counterexample: with `exampleOne` mapping `0 ↦ 5`, the call
`Insert 0 5` (so `k = 0`, `v1 = v2 = 5`) succeeds, afterwards no key other
than `0` maps to `5`, yet `ExistsByValue 5` is `true` — refuting
"afterwards ExistsByValue(v1) is false unless some other key maps to v1"
in the case `v2 = v1`. -/
theorem C2_overwrite_counterexample :
    exampleOne.immutable = false ∧
    exampleOne.GetByKey 0 = some 5 ∧
    exampleOne.Insert 0 5 = some exampleOne ∧
    (∀ k1, k1 ≠ 0 → exampleOne.forward.lookup k1 ≠ some 5) ∧
    exampleOne.ExistsByValue 5 = true := by
  refine ⟨rfl, by decide, by decide, ?_, by decide⟩
  intro k1 hk1 hlook
  have hmem := Finmap.mem_of_lookup_eq_some hlook
  rw [show exampleOne.forward = Finmap.insert 0 5 ∅ from rfl,
    Finmap.mem_insert] at hmem
  rcases hmem with h0 | hemp
  · exact hk1 h0
  · exact Finmap.not_mem_empty hemp

/-- Claim C2 (amended with `v2 ≠ v1`): on a non-frozen bimap currently
mapping `k ↦ v1`, `Insert k v2` with `v2 ≠ v1` removes the inverse entry
for `v1` and establishes `(k, v2)` in both indices; afterwards
`ExistsByValue v1` is `false` (in particular when no other key maps to
`v1`) and `GetByKey k` returns `(v2, true)`. -/
theorem C2_overwrite_semantics {b : BiMap K V} {k : K} {v1 : V} (v2 : V)
    (hb : b.immutable = false) (hk : b.forward.lookup k = some v1)
    (hne : v2 ≠ v1) :
    ∃ b', b.Insert k v2 = some b' ∧
      b'.GetByKey k = some v2 ∧
      b'.inverse.lookup v2 = some k ∧
      b'.ExistsByValue v1 = false := by
  have heq : b.Insert k v2 =
      some { b with
              forward := b.forward.insert k v2
              inverse := (b.inverse.erase v1).insert v2 k } := by
    simp [BiMap.Insert, hb, hk]
  refine ⟨_, heq, ?_, ?_, ?_⟩
  · show (b.forward.insert k v2).lookup k = some v2
    exact Finmap.lookup_insert _
  · exact Finmap.lookup_insert _
  · show (((b.inverse.erase v1).insert v2 k).lookup v1).isSome = false
    rw [Finmap.lookup_insert_of_ne _ (Ne.symm hne), Finmap.lookup_erase]
    rfl

/-- Claim C2, witness: overwrite `0 ↦ 5` with `0 ↦ 7` in `exampleOne`. -/
theorem C2_overwrite_semantics_witness :
    ∃ b', exampleOne.Insert 0 7 = some b' ∧
      b'.GetByKey 0 = some 7 ∧
      b'.inverse.lookup 7 = some 0 ∧
      b'.ExistsByValue 5 = false :=
  C2_overwrite_semantics 7 rfl (by decide) (by decide)

/-- Claim C3: inserting `(k2, v)` while `forward[k1] == v` and `k2` is
unmapped keeps `k1 ↦ v`, adds `k2 ↦ v` (two forward entries for `v`), and
overwrites the single inverse slot to `inverse[v] == k2` — a state that
violates the bijection invariant. -/
theorem C3_value_collision {b : BiMap K V} {k1 k2 : K} {v : V}
    (hb : b.immutable = false) (h1 : b.forward.lookup k1 = some v)
    (h2 : b.forward.lookup k2 = none) :
    k1 ≠ k2 ∧
    ∃ b', b.Insert k2 v = some b' ∧
      b'.forward.lookup k1 = some v ∧
      b'.forward.lookup k2 = some v ∧
      b'.inverse.lookup v = some k2 ∧
      ¬ Consistent b' := by
  have hne : k1 ≠ k2 := by
    intro h
    rw [h, h2] at h1
    cases h1
  have heq : b.Insert k2 v =
      some { b with
              forward := b.forward.insert k2 v
              inverse := b.inverse.insert v k2 } := by
    simp [BiMap.Insert, hb, h2]
  refine ⟨hne, _, heq, ?_, Finmap.lookup_insert _, Finmap.lookup_insert _, ?_⟩
  · show (b.forward.insert k2 v).lookup k1 = some v
    rw [Finmap.lookup_insert_of_ne _ hne]
    exact h1
  · intro hc
    have ha := hc.1 k1 v (by
      show (b.forward.insert k2 v).lookup k1 = some v
      rw [Finmap.lookup_insert_of_ne _ hne]
      exact h1)
    rw [show ({ b with
        forward := b.forward.insert k2 v
        inverse := b.inverse.insert v k2 } : BiMap K V).inverse =
        b.inverse.insert v k2 from rfl, Finmap.lookup_insert] at ha
    cases ha
    exact hne rfl

/-- Claim C3, witness: insert `(3, 5)` into `exampleOne` (which maps
`0 ↦ 5`). -/
theorem C3_value_collision_witness :
    (0 : Nat) ≠ 3 ∧
    ∃ b', exampleOne.Insert 3 5 = some b' ∧
      b'.forward.lookup 0 = some 5 ∧
      b'.forward.lookup 3 = some 5 ∧
      b'.inverse.lookup 5 = some 3 ∧
      ¬ Consistent b' :=
  C3_value_collision rfl (by decide) (by decide)

/-- Claim C4: after `MakeImmutable`, every `Insert` / `DeleteByKey` /
`DeleteByValue` panics (`none`, so no changed state is ever produced — the
maps are left as they were), every read returns exactly the pre-freeze
result, the maps are unchanged, calling `MakeImmutable` again is the
identity on the frozen instance, and the flag is permanently `true` (the
only flag-writing operation of the API sets it to `true`, so no operation
restores mutability). -/
theorem C4_makeImmutable_finality (b : BiMap K V) (k : K) (v : V) :
    (b.MakeImmutable).Insert k v = none ∧
    (b.MakeImmutable).DeleteByKey k = none ∧
    (b.MakeImmutable).DeleteByValue v = none ∧
    (b.MakeImmutable).GetByKey k = b.GetByKey k ∧
    (b.MakeImmutable).GetByValue v = b.GetByValue v ∧
    (b.MakeImmutable).Size = b.Size ∧
    (b.MakeImmutable).ExistsByKey k = b.ExistsByKey k ∧
    (b.MakeImmutable).ExistsByValue v = b.ExistsByValue v ∧
    (b.MakeImmutable).GetByKeyWithFallback k v = b.GetByKeyWithFallback k v ∧
    (b.MakeImmutable).GetByValueWithFallback v k = b.GetByValueWithFallback v k ∧
    (b.MakeImmutable).forward = b.forward ∧
    (b.MakeImmutable).inverse = b.inverse ∧
    (b.MakeImmutable).MakeImmutable = b.MakeImmutable ∧
    (b.MakeImmutable).immutable = true :=
  ⟨rfl, rfl, rfl, rfl, rfl, rfl, rfl, rfl, rfl, rfl, rfl, rfl, rfl, rfl⟩

/-- Claim C6: on a non-frozen bimap, `DeleteByKey k` removes the pair from
both indices when `k` is present (all other entries untouched) and returns
with the state completely unchanged — no error, no panic — when `k` is
absent; symmetrically for `DeleteByValue`. -/
theorem C6_delete_semantics {b : BiMap K V} (hb : b.immutable = false) :
    (∀ k v, b.forward.lookup k = some v →
      ∃ b', b.DeleteByKey k = some b' ∧ b'.immutable = false ∧
        b'.forward.lookup k = none ∧ b'.inverse.lookup v = none ∧
        (∀ k1, k1 ≠ k → b'.forward.lookup k1 = b.forward.lookup k1) ∧
        (∀ v1, v1 ≠ v → b'.inverse.lookup v1 = b.inverse.lookup v1)) ∧
    (∀ k, b.forward.lookup k = none → b.DeleteByKey k = some b) ∧
    (∀ v k, b.inverse.lookup v = some k →
      ∃ b', b.DeleteByValue v = some b' ∧ b'.immutable = false ∧
        b'.inverse.lookup v = none ∧ b'.forward.lookup k = none ∧
        (∀ v1, v1 ≠ v → b'.inverse.lookup v1 = b.inverse.lookup v1) ∧
        (∀ k1, k1 ≠ k → b'.forward.lookup k1 = b.forward.lookup k1)) ∧
    (∀ v, b.inverse.lookup v = none → b.DeleteByValue v = some b) := by
  refine ⟨?_, ?_, ?_, ?_⟩
  · intro k v hkv
    have heq : b.DeleteByKey k =
        some { b with
                forward := b.forward.erase k
                inverse := b.inverse.erase v } := by
      simp [BiMap.DeleteByKey, hb, hkv]
    refine ⟨_, heq, hb, Finmap.lookup_erase _ _, Finmap.lookup_erase _ _,
      fun k1 hk1 => Finmap.lookup_erase_ne hk1,
      fun v1 hv1 => Finmap.lookup_erase_ne hv1⟩
  · intro k hk
    simp [BiMap.DeleteByKey, hb, hk]
  · intro v k hvk
    have heq : b.DeleteByValue v =
        some { b with
                inverse := b.inverse.erase v
                forward := b.forward.erase k } := by
      simp [BiMap.DeleteByValue, hb, hvk]
    refine ⟨_, heq, hb, Finmap.lookup_erase _ _, Finmap.lookup_erase _ _,
      fun v1 hv1 => Finmap.lookup_erase_ne hv1,
      fun k1 hk1 => Finmap.lookup_erase_ne hk1⟩
  · intro v hv
    simp [BiMap.DeleteByValue, hb, hv]

/-- Claim C6, witness: deletions on the concrete one-entry bimap. -/
theorem C6_delete_semantics_witness :
    (∀ k v, exampleOne.forward.lookup k = some v →
      ∃ b', exampleOne.DeleteByKey k = some b' ∧ b'.immutable = false ∧
        b'.forward.lookup k = none ∧ b'.inverse.lookup v = none ∧
        (∀ k1, k1 ≠ k → b'.forward.lookup k1 = exampleOne.forward.lookup k1) ∧
        (∀ v1, v1 ≠ v → b'.inverse.lookup v1 = exampleOne.inverse.lookup v1)) ∧
    (∀ k, exampleOne.forward.lookup k = none →
      exampleOne.DeleteByKey k = some exampleOne) ∧
    (∀ v k, exampleOne.inverse.lookup v = some k →
      ∃ b', exampleOne.DeleteByValue v = some b' ∧ b'.immutable = false ∧
        b'.inverse.lookup v = none ∧ b'.forward.lookup k = none ∧
        (∀ v1, v1 ≠ v → b'.inverse.lookup v1 = exampleOne.inverse.lookup v1) ∧
        (∀ k1, k1 ≠ k → b'.forward.lookup k1 = exampleOne.forward.lookup k1)) ∧
    (∀ v, exampleOne.inverse.lookup v = none →
      exampleOne.DeleteByValue v = some exampleOne) :=
  C6_delete_semantics rfl

/-- Claim C7: with-fallback lookups on both variants return the stored
value/key when present and the caller's fallback when absent, and are
total (they never fail). -/
theorem C7_fallback_lookups (b : BiMap K V) (ib : ImmutableBiMap K V)
    (k fk : K) (v fv : V) :
    (∀ v1, b.GetByKey k = some v1 → b.GetByKeyWithFallback k fv = v1) ∧
    (b.GetByKey k = none → b.GetByKeyWithFallback k fv = fv) ∧
    (∀ k1, b.GetByValue v = some k1 → b.GetByValueWithFallback v fk = k1) ∧
    (b.GetByValue v = none → b.GetByValueWithFallback v fk = fk) ∧
    (∀ v1, ib.GetByKey k = some v1 → ib.GetByKeyWithFallback k fv = v1) ∧
    (ib.GetByKey k = none → ib.GetByKeyWithFallback k fv = fv) ∧
    (∀ k1, ib.GetByValue v = some k1 → ib.GetByValueWithFallback v fk = k1) ∧
    (ib.GetByValue v = none → ib.GetByValueWithFallback v fk = fk) := by
  refine ⟨?_, ?_, ?_, ?_, ?_, ?_, ?_, ?_⟩
  · intro v1 h
    simp [BiMap.GetByKeyWithFallback, h]
  · intro h
    simp [BiMap.GetByKeyWithFallback, h]
  · intro k1 h
    simp [BiMap.GetByValueWithFallback, h]
  · intro h
    simp [BiMap.GetByValueWithFallback, h]
  · intro v1 h
    simp [ImmutableBiMap.GetByKeyWithFallback, ImmutableBiMap.GetByKey] at h ⊢
    simp [h]
  · intro h
    simp [ImmutableBiMap.GetByKeyWithFallback, ImmutableBiMap.GetByKey] at h ⊢
    simp [h]
  · intro k1 h
    simp [ImmutableBiMap.GetByValueWithFallback, ImmutableBiMap.GetByValue] at h ⊢
    simp [h]
  · intro h
    simp [ImmutableBiMap.GetByValueWithFallback, ImmutableBiMap.GetByValue] at h ⊢
    simp [h]

/-- Claim C7, witness: the fallback contract at the concrete one-entry
bimap and its frozen snapshot. -/
theorem C7_fallback_lookups_witness :
    (∀ v1, exampleOne.GetByKey 0 = some v1 →
      exampleOne.GetByKeyWithFallback 0 9 = v1) ∧
    (exampleOne.GetByKey 0 = none → exampleOne.GetByKeyWithFallback 0 9 = 9) ∧
    (∀ k1, exampleOne.GetByValue 5 = some k1 →
      exampleOne.GetByValueWithFallback 5 9 = k1) ∧
    (exampleOne.GetByValue 5 = none →
      exampleOne.GetByValueWithFallback 5 9 = 9) ∧
    (∀ v1, exampleOne.Freeze.GetByKey 0 = some v1 →
      exampleOne.Freeze.GetByKeyWithFallback 0 9 = v1) ∧
    (exampleOne.Freeze.GetByKey 0 = none →
      exampleOne.Freeze.GetByKeyWithFallback 0 9 = 9) ∧
    (∀ k1, exampleOne.Freeze.GetByValue 5 = some k1 →
      exampleOne.Freeze.GetByValueWithFallback 5 9 = k1) ∧
    (exampleOne.Freeze.GetByValue 5 = none →
      exampleOne.Freeze.GetByValueWithFallback 5 9 = 9) :=
  C7_fallback_lookups exampleOne exampleOne.Freeze 0 9 5 9

/-- Claim C9: every deprecated method returns exactly what its replacement
returns on every state and input, including the panic (`none`) behaviour
of the deletes on a frozen instance. -/
theorem C9_deprecated_delegate (b : BiMap K V) (k : K) (v : V) :
    b.Get k = b.GetByKey k ∧
    b.GetInverse v = b.GetByValue v ∧
    b.Exists k = b.ExistsByKey k ∧
    b.ExistsInverse v = b.ExistsByValue v ∧
    b.Delete k = b.DeleteByKey k ∧
    b.DeleteInverse v = b.DeleteByValue v :=
  ⟨rfl, rfl, rfl, rfl, rfl, rfl⟩

theorem insert_erase_insert {A B : Type} [DecidableEq A] (a : A) (x : B)
    (s : GoMap A B) : ((s.insert a x).erase a).insert a x = s.insert a x := by
  apply Finmap.ext_lookup
  intro y
  by_cases hy : y = a
  · subst hy
    rw [Finmap.lookup_insert, Finmap.lookup_insert]
  · rw [Finmap.lookup_insert_of_ne _ hy, Finmap.lookup_erase_ne hy,
      Finmap.lookup_insert_of_ne _ hy]

/-- Claim C10: on a non-frozen bimap, inserting the same pair twice leaves
exactly the state produced by inserting it once. -/
theorem C10_insert_idempotent {b : BiMap K V} (k : K) (v : V)
    (hb : b.immutable = false) :
    ∃ b1, b.Insert k v = some b1 ∧ b1.Insert k v = some b1 := by
  cases hfk : b.forward.lookup k with
  | none =>
      refine ⟨{ b with
                forward := b.forward.insert k v
                inverse := b.inverse.insert v k }, ?_, ?_⟩
      · simp [BiMap.Insert, hb, hfk]
      · simp only [BiMap.Insert, hb, Bool.false_eq_true, if_false,
          Finmap.lookup_insert, Finmap.insert_insert, insert_erase_insert]
  | some vOld =>
      refine ⟨{ b with
                forward := b.forward.insert k v
                inverse := (b.inverse.erase vOld).insert v k }, ?_, ?_⟩
      · simp [BiMap.Insert, hb, hfk]
      · simp only [BiMap.Insert, hb, Bool.false_eq_true, if_false,
          Finmap.lookup_insert, Finmap.insert_insert, insert_erase_insert]

/-- Claim C10, witness: double insert of `(3, 7)` into the one-entry
bimap. -/
theorem C10_insert_idempotent_witness :
    ∃ b1, exampleOne.Insert 3 7 = some b1 ∧ b1.Insert 3 7 = some b1 :=
  C10_insert_idempotent 3 7 rfl

/-!
## Frame lemmas for the heap-level model -/

theorem applyOp_frame {b : HBiMap} {h h1 : Heap K V} {op : MutOp K V}
    (heq : b.applyOp h op = some h1) :
    h1.next = h.next ∧
    (∀ r, r ≠ b.forward → h1.fwdStore r = h.fwdStore r) ∧
    (∀ r, r ≠ b.inverse → h1.invStore r = h.invStore r) := by
  by_cases hb : b.immutable
  · cases op <;>
      simp [HBiMap.applyOp, HBiMap.Insert, HBiMap.DeleteByKey,
        HBiMap.DeleteByValue, hb] at heq
  · cases op with
    | insert k v =>
        simp only [HBiMap.applyOp, HBiMap.Insert, hb, Bool.false_eq_true,
          if_false, Option.some.injEq] at heq
        subst heq
        refine ⟨rfl, ?_, ?_⟩
        · intro r hr
          simp [Heap.writeFwd, Heap.writeInv, hr]
        · intro r hr
          simp [Heap.writeFwd, Heap.writeInv, hr]
    | deleteByKey k =>
        cases hfk : (h.fwdStore b.forward).lookup k with
        | none =>
            simp only [HBiMap.applyOp, HBiMap.DeleteByKey, hb,
              Bool.false_eq_true, if_false, hfk, Option.some.injEq] at heq
            subst heq
            exact ⟨rfl, fun r _ => rfl, fun r _ => rfl⟩
        | some val =>
            simp only [HBiMap.applyOp, HBiMap.DeleteByKey, hb,
              Bool.false_eq_true, if_false, hfk, Option.some.injEq] at heq
            subst heq
            refine ⟨rfl, ?_, ?_⟩
            · intro r hr
              simp [Heap.writeFwd, Heap.writeInv, hr]
            · intro r hr
              simp [Heap.writeFwd, Heap.writeInv, hr]
    | deleteByValue v =>
        cases hiv : (h.invStore b.inverse).lookup v with
        | none =>
            simp only [HBiMap.applyOp, HBiMap.DeleteByValue, hb,
              Bool.false_eq_true, if_false, hiv, Option.some.injEq] at heq
            subst heq
            exact ⟨rfl, fun r _ => rfl, fun r _ => rfl⟩
        | some key =>
            simp only [HBiMap.applyOp, HBiMap.DeleteByValue, hb,
              Bool.false_eq_true, if_false, hiv, Option.some.injEq] at heq
            subst heq
            refine ⟨rfl, ?_, ?_⟩
            · intro r hr
              simp [Heap.writeFwd, Heap.writeInv, hr]
            · intro r hr
              simp [Heap.writeFwd, Heap.writeInv, hr]

theorem runOps_frame {b : HBiMap} {ops : List (MutOp K V)} {h h2 : Heap K V}
    (heq : b.runOps h ops = some h2) :
    h2.next = h.next ∧
    (∀ r, r ≠ b.forward → h2.fwdStore r = h.fwdStore r) ∧
    (∀ r, r ≠ b.inverse → h2.invStore r = h.invStore r) := by
  induction ops generalizing h with
  | nil =>
      simp only [HBiMap.runOps, Option.some.injEq] at heq
      subst heq
      exact ⟨rfl, fun r _ => rfl, fun r _ => rfl⟩
  | cons op rest ih =>
      simp only [HBiMap.runOps] at heq
      cases hstep : b.applyOp h op with
      | none =>
          rw [hstep] at heq
          cases heq
      | some h1 =>
          rw [hstep] at heq
          have h1f := applyOp_frame hstep
          have h2f := ih heq
          exact ⟨h2f.1.trans h1f.1,
            fun r hr => (h2f.2.1 r hr).trans (h1f.2.1 r hr),
            fun r hr => (h2f.2.2 r hr).trans (h1f.2.2 r hr)⟩

/-- Claim C5: `Freeze` returns a snapshot holding full copies of the two
indices at the moment of the call; the source's own map objects are not
written and the source stays mutable (`Insert` still succeeds), and after
any subsequent sequence of mutating calls on the source, every read of the
snapshot still returns the snapshot-time result — in particular its size
stays at the snapshot size and a key absent at snapshot time stays
absent. -/
theorem C5_freeze_independence {b : HBiMap} {h : Heap K V}
    (hb : b.immutable = false)
    (hf : b.forward < h.next) (hi : b.inverse < h.next) :
    ((b.Freeze h).1.fwdStore b.forward = h.fwdStore b.forward ∧
      (b.Freeze h).1.invStore b.inverse = h.invStore b.inverse) ∧
    (∀ k, (b.Freeze h).2.GetByKey (b.Freeze h).1 k = b.GetByKey h k) ∧
    (∀ v, (b.Freeze h).2.GetByValue (b.Freeze h).1 v = b.GetByValue h v) ∧
    (b.Freeze h).2.Size (b.Freeze h).1 = b.Size h ∧
    (∀ k v, (b.Insert (b.Freeze h).1 k v).isSome = true) ∧
    (∀ ops h2, b.runOps (b.Freeze h).1 ops = some h2 →
      (b.Freeze h).2.Size h2 = b.Size h ∧
      (∀ k, (b.Freeze h).2.GetByKey h2 k = b.GetByKey h k) ∧
      (∀ v, (b.Freeze h).2.GetByValue h2 v = b.GetByValue h v) ∧
      (∀ k, (b.Freeze h).2.ExistsByKey h2 k = b.ExistsByKey h k) ∧
      (∀ v, (b.Freeze h).2.ExistsByValue h2 v = b.ExistsByValue h v) ∧
      (∀ k, b.ExistsByKey h k = false →
        (b.Freeze h).2.ExistsByKey h2 k = false)) := by
  have hnef : b.forward ≠ h.next := Nat.ne_of_lt hf
  have hnei : b.inverse ≠ h.next + 1 :=
    Nat.ne_of_lt (Nat.lt_succ_of_lt hi)
  refine ⟨⟨?_, ?_⟩, ?_, ?_, ?_, ?_, ?_⟩
  · show (if b.forward = h.next then h.fwdStore b.forward
      else h.fwdStore b.forward) = h.fwdStore b.forward
    rw [if_neg hnef]
  · show (if b.inverse = h.next + 1 then h.invStore b.inverse
      else h.invStore b.inverse) = h.invStore b.inverse
    rw [if_neg hnei]
  · intro k
    show ((if h.next = h.next then h.fwdStore b.forward
      else h.fwdStore h.next).lookup k) = (h.fwdStore b.forward).lookup k
    rw [if_pos rfl]
  · intro v
    show ((if h.next + 1 = h.next + 1 then h.invStore b.inverse
      else h.invStore (h.next + 1)).lookup v) = (h.invStore b.inverse).lookup v
    rw [if_pos rfl]
  · show (if h.next = h.next then h.fwdStore b.forward
      else h.fwdStore h.next).keys.card = (h.fwdStore b.forward).keys.card
    rw [if_pos rfl]
  · intro k v
    simp [HBiMap.Insert, hb]
  · intro ops h2 heq
    have hframe := runOps_frame heq
    have hf2 : h2.fwdStore h.next = h.fwdStore b.forward := by
      have step1 := hframe.2.1 h.next (Ne.symm hnef)
      rw [step1]
      show (if h.next = h.next then h.fwdStore b.forward
        else h.fwdStore h.next) = h.fwdStore b.forward
      rw [if_pos rfl]
    have hi2 : h2.invStore (h.next + 1) = h.invStore b.inverse := by
      have step1 := hframe.2.2 (h.next + 1) (Ne.symm hnei)
      rw [step1]
      show (if h.next + 1 = h.next + 1 then h.invStore b.inverse
        else h.invStore (h.next + 1)) = h.invStore b.inverse
      rw [if_pos rfl]
    refine ⟨?_, ?_, ?_, ?_, ?_, ?_⟩
    · show (h2.fwdStore h.next).keys.card = (h.fwdStore b.forward).keys.card
      rw [hf2]
    · intro k
      show (h2.fwdStore h.next).lookup k = (h.fwdStore b.forward).lookup k
      rw [hf2]
    · intro v
      show (h2.invStore (h.next + 1)).lookup v =
        (h.invStore b.inverse).lookup v
      rw [hi2]
    · intro k
      show ((h2.fwdStore h.next).lookup k).isSome =
        ((h.fwdStore b.forward).lookup k).isSome
      rw [hf2]
    · intro v
      show ((h2.invStore (h.next + 1)).lookup v).isSome =
        ((h.invStore b.inverse).lookup v).isSome
      rw [hi2]
    · intro k hk
      show ((h2.fwdStore h.next).lookup k).isSome = false
      rw [hf2]
      exact hk

/-- Claim C8: on the immutable variant, `GetForwardMap` / `GetInverseMap`
return a fresh copy of the internal index at a new address, and
overwriting the returned map object with arbitrary new contents leaves
every read of the `ImmutableBiMap` exactly as before. -/
theorem C8_defensive_copies {ib : HImmutableBiMap} {h : Heap K V}
    (hf : ib.forward < h.next) (hi : ib.inverse < h.next) :
    (ib.GetForwardMap h).1.fwdStore (ib.GetForwardMap h).2 =
        h.fwdStore ib.forward ∧
    (ib.GetForwardMap h).2 ≠ ib.forward ∧
    (∀ m : GoMap K V,
      ib.Size ((ib.GetForwardMap h).1.writeFwd (ib.GetForwardMap h).2 m) =
          ib.Size h ∧
      (∀ k, ib.ExistsByKey
          ((ib.GetForwardMap h).1.writeFwd (ib.GetForwardMap h).2 m) k =
          ib.ExistsByKey h k) ∧
      (∀ k, ib.GetByKey
          ((ib.GetForwardMap h).1.writeFwd (ib.GetForwardMap h).2 m) k =
          ib.GetByKey h k) ∧
      (∀ v, ib.GetByValue
          ((ib.GetForwardMap h).1.writeFwd (ib.GetForwardMap h).2 m) v =
          ib.GetByValue h v) ∧
      (∀ v, ib.ExistsByValue
          ((ib.GetForwardMap h).1.writeFwd (ib.GetForwardMap h).2 m) v =
          ib.ExistsByValue h v)) ∧
    (ib.GetInverseMap h).1.invStore (ib.GetInverseMap h).2 =
        h.invStore ib.inverse ∧
    (ib.GetInverseMap h).2 ≠ ib.inverse ∧
    (∀ m : GoMap V K,
      ib.Size ((ib.GetInverseMap h).1.writeInv (ib.GetInverseMap h).2 m) =
          ib.Size h ∧
      (∀ k, ib.ExistsByKey
          ((ib.GetInverseMap h).1.writeInv (ib.GetInverseMap h).2 m) k =
          ib.ExistsByKey h k) ∧
      (∀ v, ib.GetByValue
          ((ib.GetInverseMap h).1.writeInv (ib.GetInverseMap h).2 m) v =
          ib.GetByValue h v) ∧
      (∀ v, ib.ExistsByValue
          ((ib.GetInverseMap h).1.writeInv (ib.GetInverseMap h).2 m) v =
          ib.ExistsByValue h v)) := by
  have hnef : ib.forward ≠ h.next := Nat.ne_of_lt hf
  have hnei : ib.inverse ≠ h.next := Nat.ne_of_lt hi
  refine ⟨?_, ?_, ?_, ?_, ?_, ?_⟩
  · show (if h.next = h.next then h.fwdStore ib.forward
      else h.fwdStore h.next) = h.fwdStore ib.forward
    rw [if_pos rfl]
  · exact Ne.symm hnef
  · intro m
    have hfwd : ((ib.GetForwardMap h).1.writeFwd (ib.GetForwardMap h).2
        m).fwdStore ib.forward = h.fwdStore ib.forward := by
      show (if ib.forward = h.next then m
        else if ib.forward = h.next then h.fwdStore ib.forward
          else h.fwdStore ib.forward) = h.fwdStore ib.forward
      rw [if_neg hnef, if_neg hnef]
    have hinv : ((ib.GetForwardMap h).1.writeFwd (ib.GetForwardMap h).2
        m).invStore ib.inverse = h.invStore ib.inverse := rfl
    refine ⟨?_, ?_, ?_, ?_, ?_⟩
    · show (((ib.GetForwardMap h).1.writeFwd (ib.GetForwardMap h).2
        m).fwdStore ib.forward).keys.card = (h.fwdStore ib.forward).keys.card
      rw [hfwd]
    · intro k
      show ((((ib.GetForwardMap h).1.writeFwd (ib.GetForwardMap h).2
        m).fwdStore ib.forward).lookup k).isSome =
        ((h.fwdStore ib.forward).lookup k).isSome
      rw [hfwd]
    · intro k
      show (((ib.GetForwardMap h).1.writeFwd (ib.GetForwardMap h).2
        m).fwdStore ib.forward).lookup k = (h.fwdStore ib.forward).lookup k
      rw [hfwd]
    · intro v
      show (((ib.GetForwardMap h).1.writeFwd (ib.GetForwardMap h).2
        m).invStore ib.inverse).lookup v = (h.invStore ib.inverse).lookup v
      rw [hinv]
    · intro v
      show ((((ib.GetForwardMap h).1.writeFwd (ib.GetForwardMap h).2
        m).invStore ib.inverse).lookup v).isSome =
        ((h.invStore ib.inverse).lookup v).isSome
      rw [hinv]
  · show (if h.next = h.next then h.invStore ib.inverse
      else h.invStore h.next) = h.invStore ib.inverse
    rw [if_pos rfl]
  · exact Ne.symm hnei
  · intro m
    have hinv : ((ib.GetInverseMap h).1.writeInv (ib.GetInverseMap h).2
        m).invStore ib.inverse = h.invStore ib.inverse := by
      show (if ib.inverse = h.next then m
        else if ib.inverse = h.next then h.invStore ib.inverse
          else h.invStore ib.inverse) = h.invStore ib.inverse
      rw [if_neg hnei, if_neg hnei]
    have hfwd : ((ib.GetInverseMap h).1.writeInv (ib.GetInverseMap h).2
        m).fwdStore ib.forward = h.fwdStore ib.forward := rfl
    refine ⟨?_, ?_, ?_, ?_⟩
    · show (((ib.GetInverseMap h).1.writeInv (ib.GetInverseMap h).2
        m).fwdStore ib.forward).keys.card = (h.fwdStore ib.forward).keys.card
      rw [hfwd]
    · intro k
      show ((((ib.GetInverseMap h).1.writeInv (ib.GetInverseMap h).2
        m).fwdStore ib.forward).lookup k).isSome =
        ((h.fwdStore ib.forward).lookup k).isSome
      rw [hfwd]
    · intro v
      show (((ib.GetInverseMap h).1.writeInv (ib.GetInverseMap h).2
        m).invStore ib.inverse).lookup v = (h.invStore ib.inverse).lookup v
      rw [hinv]
    · intro v
      show ((((ib.GetInverseMap h).1.writeInv (ib.GetInverseMap h).2
        m).invStore ib.inverse).lookup v).isSome =
        ((h.invStore ib.inverse).lookup v).isSome
      rw [hinv]

/-- A concrete heap with a one-entry bimap (`7 ↦ 1`) stored at addresses
`0` (forward) and `1` (inverse); `2` is the next fresh address. -/
def exampleHeap : Heap Nat Nat :=
  { fwdStore := fun a => if a = 0 then Finmap.insert 7 1 ∅ else ∅
    invStore := fun a => if a = 1 then Finmap.insert 1 7 ∅ else ∅
    next := 2 }

/-- The heap-level mutable bimap living in `exampleHeap`. -/
def exampleHBiMap : HBiMap :=
  { immutable := false, forward := 0, inverse := 1 }

/-- A heap-level immutable bimap over the same two map objects. -/
def exampleHImm : HImmutableBiMap :=
  { forward := 0, inverse := 1 }

/-- Claim C5, witness: the freeze-independence theorem applied to the
concrete heap. -/
theorem C5_freeze_independence_witness :
    ((exampleHBiMap.Freeze exampleHeap).1.fwdStore exampleHBiMap.forward =
        exampleHeap.fwdStore exampleHBiMap.forward ∧
      (exampleHBiMap.Freeze exampleHeap).1.invStore exampleHBiMap.inverse =
        exampleHeap.invStore exampleHBiMap.inverse) ∧
    (∀ k, (exampleHBiMap.Freeze exampleHeap).2.GetByKey
        (exampleHBiMap.Freeze exampleHeap).1 k =
      exampleHBiMap.GetByKey exampleHeap k) ∧
    (∀ v, (exampleHBiMap.Freeze exampleHeap).2.GetByValue
        (exampleHBiMap.Freeze exampleHeap).1 v =
      exampleHBiMap.GetByValue exampleHeap v) ∧
    (exampleHBiMap.Freeze exampleHeap).2.Size
        (exampleHBiMap.Freeze exampleHeap).1 =
      exampleHBiMap.Size exampleHeap ∧
    (∀ k v, (exampleHBiMap.Insert
        (exampleHBiMap.Freeze exampleHeap).1 k v).isSome = true) ∧
    (∀ ops h2, exampleHBiMap.runOps
        (exampleHBiMap.Freeze exampleHeap).1 ops = some h2 →
      (exampleHBiMap.Freeze exampleHeap).2.Size h2 =
        exampleHBiMap.Size exampleHeap ∧
      (∀ k, (exampleHBiMap.Freeze exampleHeap).2.GetByKey h2 k =
        exampleHBiMap.GetByKey exampleHeap k) ∧
      (∀ v, (exampleHBiMap.Freeze exampleHeap).2.GetByValue h2 v =
        exampleHBiMap.GetByValue exampleHeap v) ∧
      (∀ k, (exampleHBiMap.Freeze exampleHeap).2.ExistsByKey h2 k =
        exampleHBiMap.ExistsByKey exampleHeap k) ∧
      (∀ v, (exampleHBiMap.Freeze exampleHeap).2.ExistsByValue h2 v =
        exampleHBiMap.ExistsByValue exampleHeap v) ∧
      (∀ k, exampleHBiMap.ExistsByKey exampleHeap k = false →
        (exampleHBiMap.Freeze exampleHeap).2.ExistsByKey h2 k = false)) :=
  C5_freeze_independence rfl (by decide) (by decide)

/-- Claim C8, witness: the defensive-copy theorem applied to the concrete
heap. -/
theorem C8_defensive_copies_witness :
    (exampleHImm.GetForwardMap exampleHeap).1.fwdStore
        (exampleHImm.GetForwardMap exampleHeap).2 =
      exampleHeap.fwdStore exampleHImm.forward ∧
    (exampleHImm.GetForwardMap exampleHeap).2 ≠ exampleHImm.forward ∧
    (∀ m : GoMap Nat Nat,
      exampleHImm.Size ((exampleHImm.GetForwardMap exampleHeap).1.writeFwd
          (exampleHImm.GetForwardMap exampleHeap).2 m) =
        exampleHImm.Size exampleHeap ∧
      (∀ k, exampleHImm.ExistsByKey
          ((exampleHImm.GetForwardMap exampleHeap).1.writeFwd
            (exampleHImm.GetForwardMap exampleHeap).2 m) k =
        exampleHImm.ExistsByKey exampleHeap k) ∧
      (∀ k, exampleHImm.GetByKey
          ((exampleHImm.GetForwardMap exampleHeap).1.writeFwd
            (exampleHImm.GetForwardMap exampleHeap).2 m) k =
        exampleHImm.GetByKey exampleHeap k) ∧
      (∀ v, exampleHImm.GetByValue
          ((exampleHImm.GetForwardMap exampleHeap).1.writeFwd
            (exampleHImm.GetForwardMap exampleHeap).2 m) v =
        exampleHImm.GetByValue exampleHeap v) ∧
      (∀ v, exampleHImm.ExistsByValue
          ((exampleHImm.GetForwardMap exampleHeap).1.writeFwd
            (exampleHImm.GetForwardMap exampleHeap).2 m) v =
        exampleHImm.ExistsByValue exampleHeap v)) ∧
    (exampleHImm.GetInverseMap exampleHeap).1.invStore
        (exampleHImm.GetInverseMap exampleHeap).2 =
      exampleHeap.invStore exampleHImm.inverse ∧
    (exampleHImm.GetInverseMap exampleHeap).2 ≠ exampleHImm.inverse ∧
    (∀ m : GoMap Nat Nat,
      exampleHImm.Size ((exampleHImm.GetInverseMap exampleHeap).1.writeInv
          (exampleHImm.GetInverseMap exampleHeap).2 m) =
        exampleHImm.Size exampleHeap ∧
      (∀ k, exampleHImm.ExistsByKey
          ((exampleHImm.GetInverseMap exampleHeap).1.writeInv
            (exampleHImm.GetInverseMap exampleHeap).2 m) k =
        exampleHImm.ExistsByKey exampleHeap k) ∧
      (∀ v, exampleHImm.GetByValue
          ((exampleHImm.GetInverseMap exampleHeap).1.writeInv
            (exampleHImm.GetInverseMap exampleHeap).2 m) v =
        exampleHImm.GetByValue exampleHeap v) ∧
      (∀ v, exampleHImm.ExistsByValue
          ((exampleHImm.GetInverseMap exampleHeap).1.writeInv
            (exampleHImm.GetInverseMap exampleHeap).2 m) v =
        exampleHImm.ExistsByValue exampleHeap v)) :=
  C8_defensive_copies (by decide) (by decide)

end Bimap
